import Mathlib

/-!
# Verification of the logo logging package's rendering and appender core

Shallow embedding of the template compiler (`extract` in formatting.go),
the renderer set (`Formatter` implementations), the JSON formatter's
object construction, the appender `SetFormat` logic, and the rolling
file appender's write/rotate byte accounting, together with theorems
settling the specification claims about them.

Templates and rendered output are modelled as `List Char`; the Go code
scans a string byte-by-byte and every input exercised here is ASCII,
so character positions coincide with the Go byte positions.
-/

namespace Logo

/-- A dynamically typed Go value (`interface{}`), restricted to the value
kinds the logging call sites use: integers, strings and booleans. -/
inductive GoValue where
  | int (i : Int)
  | str (s : List Char)
  | bool (b : Bool)
  deriving DecidableEq, Repr

instance : Inhabited GoValue := ⟨.int 0⟩

/-- Modelled from the Go standard library: `fmt.Sprint` of a single
operand, for the value kinds in `GoValue`. -/
def goSprint : GoValue → List Char
  | .int i => (toString i).toList
  | .str s => s
  | .bool b => if b then ['t', 'r', 'u', 'e'] else ['f', 'a', 'l', 's', 'e']

/-- Whether a value is a Go string (used by `fmt.Sprint`'s separator rule). -/
def GoValue.isStr : GoValue → Bool
  | .str _ => true
  | _ => false

/-- Modelled from the Go standard library: `fmt.Sprint` over an operand
list; a space is added between operands when neither is a string. -/
def goFprint : List GoValue → List Char
  | [] => []
  | [a] => goSprint a
  | a :: b :: rest =>
    goSprint a ++ (if a.isStr || b.isStr then [] else [' ']) ++ goFprint (b :: rest)

/-- Modelled from the Go standard library: `fmt.Sprintf` restricted to the
verbs used in this repository's templates and tests (`%d`, `%s`, `%v`) and
the `%%` escape; a missing operand renders Go's `%!v(MISSING)` marker. -/
def goSprintf : List Char → List GoValue → List Char
  | [], _ => []
  | '%' :: c :: rest, args =>
    if c = '%' then '%' :: goSprintf rest args
    else if c = 'd' ∨ c = 's' ∨ c = 'v' then
      match args with
      | [] => '%' :: '!' :: c :: ('(' :: 'M' :: 'I' :: 'S' :: 'S' :: 'I' :: 'N' :: 'G' :: ')' :: goSprintf rest [])
      | a :: args' => goSprint a ++ goSprintf rest args'
    else '%' :: c :: goSprintf rest args
  | c :: rest, args => c :: goSprintf rest args

/-- A wall-clock instant, already normalized to UTC (the code calls
`t.UTC()` before reading the fields; records carry UTC-normalized
timestamps, so the conversion is the identity here). -/
structure GoTime where
  year : Nat
  month : Nat
  day : Nat
  hour : Nat
  minute : Nat
  second : Nat
  nano : Nat
  deriving DecidableEq, Repr

/-- Go map read `v, ok := m[k]` over an association-list model of a map
(first binding wins; well-formed maps have unique keys). -/
def lookupProp {α : Type} : List (List Char × α) → List Char → Option α
  | [], _ => none
  | (k', v') :: d, k => if k' = k then some v' else lookupProp d k

/-- Modelled from the spec: the `LogMessage` record handed to formatters.
The struct declaration with the `properties` map and the `time.Time`
timestamp is not under src/ (only its uses in formatting.go and its
construction in the tests are); the fields are reconstructed from the
spec's Record description and those uses. The embedded output buffer is
not part of the model — rendering returns the appended characters. -/
structure LogMessage where
  format : List Char
  args : List GoValue
  severity : Nat
  name : List Char
  file : List Char
  line : Int
  ctx : List Char
  timestamp : GoTime
  properties : List (List Char × GoValue)
  deriving DecidableEq, Repr

/-- Severity names, indexed by the severity ordinal (log.go). -/
def severityName : List (List Char) :=
  [['D', 'E', 'B', 'U', 'G'], ['I', 'N', 'F', 'O'], ['W', 'A', 'R', 'N'],
   ['E', 'R', 'R', 'O', 'R'], ['P', 'A', 'N', 'I', 'C'], ['F', 'A', 'T', 'A', 'L']]

/-- `digits` table from formatting.go, as a lookup: `digits[i%10]`. -/
def digitChar (i : Nat) : Char :=
  (['0', '1', '2', '3', '4', '5', '6', '7', '8', '9']).getD (i % 10) '0'

/-- `tmpBuffer.pad2Digits`: the two characters `digits[(i/10)%10]`,
`digits[i%10]`. -/
def pad2Digits (i : Nat) : List Char :=
  [digitChar (i / 10), digitChar i]

/-- `tmpBuffer.padNDigits`: exactly `n` characters — the last `n` decimal
digits of `i`, left-padded with `'0'` (the loop fills positions from the
right while `i > 0`, then zero-fills the rest). -/
def padNDigits : Nat → Nat → List Char
  | _, 0 => []
  | i, n + 1 =>
    if i > 0 then padNDigits (i / 10) n ++ [digitChar i]
    else List.replicate (n + 1) '0'

/-- `dateFormatter.setTime`: renders `yyyy-mm-dd hh:mm:ss.uuuuuu` into the
scratch buffer (micro = nanoseconds / 1000). -/
def setTime (t : GoTime) : List Char :=
  padNDigits t.year 4 ++ ['-'] ++ pad2Digits t.month ++ ['-'] ++ pad2Digits t.day ++ [' '] ++
  pad2Digits t.hour ++ [':'] ++ pad2Digits t.minute ++ [':'] ++ pad2Digits t.second ++ ['.'] ++
  padNDigits (t.nano / 1000) 6

/-- The closed set of formatter implementations in formatting.go. The Go
interface `Formatter` has exactly these implementations; `literal` carries
its text and `property` the name bound by `WithParameter`. -/
inductive Formatter where
  | literal (s : List Char)
  | date
  | severity
  | logger
  | file
  | line
  | context
  | message
  | newline
  | property (name : List Char)
  | json
  deriving DecidableEq, Repr

/-- The `Names()` method of each formatter (tag aliases, in source order). -/
def Formatter.names : Formatter → List (List Char)
  | .literal _ => []
  | .date => [['d', 'a', 't', 'e'], ['d']]
  | .severity => [['s', 'e', 'v', 'e', 'r', 'i', 't', 'y'], ['s']]
  | .logger => [['l', 'o', 'g', 'g', 'e', 'r']]
  | .file => [['f', 'i', 'l', 'e'], ['f']]
  | .line => [['l', 'i', 'n', 'e']]
  | .context => [['c', 'o', 'n', 't', 'e', 'x', 't'], ['c']]
  | .message => [['m', 'e', 's', 's', 'a', 'g', 'e'], ['m']]
  | .newline => [['n', 'e', 'w', 'l', 'i', 'n', 'e'], ['n']]
  | .property _ => [['p', 'r', 'o', 'p', 'e', 'r', 't', 'y'], ['p']]
  | .json => [['J', 'S', 'O', 'N']]

/-- The `WithParameter(p)` method of each formatter. -/
def Formatter.withParameter : Formatter → List Char → Formatter
  | .literal _, p => .literal p
  | .date, _ => .date
  | .severity, _ => .severity
  | .logger, _ => .logger
  | .file, _ => .file
  | .line, _ => .line
  | .context, _ => .context
  | .message, _ => .message
  | .newline, _ => .newline
  | .property _, p => .property p
  | .json, _ => .json

/-- The `formatters` registry in formatting.go, in registration order; note
that `jsonFormatter` is not registered and `propertyFormatter` is
registered with its zero-value (empty) name. -/
def formatters : List Formatter :=
  [.date, .severity, .logger, .file, .line, .context, .message, .newline, .property []]

/-- The tag comparison in `extract`:
`len(t) <= len(format[i:]) && t == format[i:i+len(t)]`. -/
def isPrefixOfChars : List Char → List Char → Bool
  | [], _ => true
  | _ :: _, [] => false
  | a :: as, b :: bs => a = b && isPrefixOfChars as bs

/-- The first name of `names` (in order) that matches at the start of
`rest`, returning its length (inner loop of `extract`'s tag search). -/
def firstNameMatch : List (List Char) → List Char → Option Nat
  | [], _ => none
  | t :: ts, rest => if isPrefixOfChars t rest then some t.length else firstNameMatch ts rest

/-- The outer loop of `extract`'s tag search: the first registered
formatter one of whose names matches at the start of `rest`, with the
matched name's length. -/
def findTag : List Formatter → List Char → Option (Formatter × Nat)
  | [], _ => none
  | f :: fs, rest =>
    match firstNameMatch f.names rest with
    | some n => some (f, n)
    | none => findTag fs rest

/-- `strings.IndexByte(s, c)`: index of the first occurrence, `none` (Go:
`-1`) when absent. -/
def indexOfChar (c : Char) : List Char → Option Nat
  | [] => none
  | x :: xs => if x = c then some 0 else (indexOfChar c xs).map (· + 1)

/-- Compilation errors of `extract`, with the position carried in the Go
error message: `invalid syntax at position %d` and
`invalid syntax - unclosed parameter brace at position %d`. -/
inductive ExtractError where
  | invalidSyntax (pos : Nat)
  | unclosedBrace (pos : Nat)
  deriving DecidableEq, Repr

/-- The loop of `extract` (formatting.go), with the loop index `i`, the
pending literal `p` and the result slice `s` made explicit. The Go loop
advances `i` by at least one per iteration, so it is embedded with a fuel
parameter; `none` is returned only on fuel exhaustion, which never happens
for the fuel `extract` supplies (each branch mirrors the corresponding
lines of the source; the error positions are the Go `i-1` resp. `i` at the
point of failure, rewritten in terms of the loop-entry index). -/
def extractAux (format : List Char) :
    Nat → Nat → List Char → List Formatter → Option (Except ExtractError (List Formatter))
  | 0, _, _, _ => none
  | fuel + 1, i, p, s =>
    if h : i < format.length then
      let c := format.get ⟨i, h⟩
      if c ≠ '%' then
        extractAux format fuel (i + 1) (p ++ [c]) s
      else if format.length - i = 1 then
        -- trailing '%': kept as a literal character
        extractAux format fuel (i + 1) (p ++ [c]) s
      else if format.getD (i + 1) ' ' = '%' then
        -- escaped "%%": one literal '%', both characters consumed
        extractAux format fuel (i + 2) (p ++ [c]) s
      else
        -- flush the pending literal, then match a tag after the '%'
        let s' := if p.length > 0 then s ++ [Formatter.literal p] else s
        match findTag formatters (format.drop (i + 1)) with
        | none => some (Except.error (ExtractError.invalidSyntax i))
        | some (f, n) =>
          -- `format.getD i2 ' '` models `i2 < len(format) && format[i2] == '{'`
          let i2 := i + 1 + n
          if format.getD i2 ' ' = '{' then
            match indexOfChar '}' (format.drop i2) with
            | none => some (Except.error (ExtractError.unclosedBrace i2))
            | some j =>
              extractAux format fuel (i2 + j + 1) []
                (s' ++ [f.withParameter ((format.drop (i2 + 1)).take (j - 1))])
          else
            extractAux format fuel i2 [] (s' ++ [f])
    else
      some (Except.ok (if p.length > 0 then s ++ [Formatter.literal p] else s))

/-- `extract(format)`: compile a template into a formatter sequence. The
fuel `format.length + 1` is sufficient because every iteration advances
the index. -/
def extract (format : List Char) : Option (Except ExtractError (List Formatter)) :=
  extractAux format (format.length + 1) 0 [] []

/-- `extract` with the (never used, see `extract_isSome`) fuel-exhaustion
default removed. -/
def extractT (format : List Char) : Except ExtractError (List Formatter) :=
  (extract format).getD (Except.error (ExtractError.invalidSyntax 0))

/-- The default appender format (appender file). -/
def defaultFormat : List Char :=
  "%date %severity (%file:%line) - %message%newline".toList

/-! ## The JSON formatter's object -/

/-- A JSON value as produced by `jsonFormatter.Format`'s map before
marshalling; `time` is a `time.Time` value (marshalled as an RFC 3339
string). -/
inductive JsonValue where
  | str (s : List Char)
  | num (n : Int)
  | bool (b : Bool)
  | time (t : GoTime)
  | arr (xs : List JsonValue)
  | obj (kvs : List (List Char × JsonValue))

instance : Inhabited JsonValue := ⟨.num 0⟩

/-- Modelled from the Go standard library: how `encoding/json` marshals a
dynamically typed value of the kinds in `GoValue`. -/
def GoValue.toJson : GoValue → JsonValue
  | .int i => .num i
  | .str s => .str s
  | .bool b => .bool b

/-- Go map assignment `d[k] = v` over the association-list model:
overwrite the existing binding or append a new one. -/
def mapSet : List (List Char × JsonValue) → List Char → JsonValue → List (List Char × JsonValue)
  | [], k, v => [(k, v)]
  | (k', v') :: d, k, v => if k' = k then (k, v) :: d else (k', v') :: mapSet d k v

/-- The `message` value of `jsonFormatter.Format`: the formatted string
when the record has a format, else the sole argument, else the argument
slice. -/
def jsonMessage (m : LogMessage) : JsonValue :=
  if m.format.length > 0 then .str (goSprintf m.format m.args)
  else
    match m.args with
    | [a] => a.toJson
    | args => .arr (args.map GoValue.toJson)

/-- The map `d` built by `jsonFormatter.Format`, assignment by assignment
in source order, then the record's properties, then `message`. -/
def jsonObject (m : LogMessage) : List (List Char × JsonValue) :=
  let d := mapSet [] "@timestamp".toList (.time m.timestamp)
  let d := mapSet d "@version".toList (.str ['1'])
  let d := mapSet d "level".toList (.str (severityName.getD m.severity []))
  let d := mapSet d "level_value".toList (.num m.severity)
  let d := mapSet d "logger_name".toList (.str m.name)
  let d := mapSet d "file".toList (.str m.file)
  let d := mapSet d "line".toList (.num m.line)
  let d := m.properties.foldl (fun d kv => mapSet d kv.1 kv.2.toJson) d
  mapSet d "message".toList (jsonMessage m)

/-- Modelled from the Go standard library: `encoding/json` string
escaping, for the characters exercised here. -/
def jsonEscape (s : List Char) : List Char :=
  (s.map fun c =>
    if c = '"' then ['\\', '"']
    else if c = '\\' then ['\\', '\\']
    else if c = '\n' then ['\\', 'n']
    else [c]).flatten

/-- Modelled from the Go standard library: `time.Time.MarshalJSON`'s
RFC 3339 rendering of a UTC instant, with trailing zeros of the
fractional second trimmed. -/
def timeRFC3339 (t : GoTime) : List Char :=
  let frac := ((padNDigits t.nano 9).reverse.dropWhile (· = '0')).reverse
  padNDigits t.year 4 ++ ['-'] ++ pad2Digits t.month ++ ['-'] ++ pad2Digits t.day ++ ['T'] ++
  pad2Digits t.hour ++ [':'] ++ pad2Digits t.minute ++ [':'] ++ pad2Digits t.second ++
  (if frac = [] then [] else '.' :: frac) ++ ['Z']

/-- Lexicographic byte order on keys (Go's `encoding/json` sorts map keys;
for the ASCII keys here byte order is character order). -/
def charListLe : List Char → List Char → Bool
  | [], _ => true
  | _ :: _, [] => false
  | a :: as, b :: bs => if a = b then charListLe as bs else decide (a.toNat ≤ b.toNat)

/-- Insertion into a key-sorted association list. -/
def insertSorted (kv : List Char × JsonValue) :
    List (List Char × JsonValue) → List (List Char × JsonValue)
  | [] => [kv]
  | x :: xs => if charListLe kv.1 x.1 then kv :: x :: xs else x :: insertSorted kv xs

/-- Sort an association list by key (insertion sort). -/
def sortByKey (l : List (List Char × JsonValue)) : List (List Char × JsonValue) :=
  l.foldr insertSorted []

mutual

/-- Modelled from the Go standard library: `json.Marshal` of one value. -/
def JsonValue.render : JsonValue → List Char
  | .str s => '"' :: (jsonEscape s ++ ['"'])
  | .num n => (toString n).toList
  | .bool b => if b then ['t', 'r', 'u', 'e'] else ['f', 'a', 'l', 's', 'e']
  | .time t => '"' :: (timeRFC3339 t ++ ['"'])
  | .arr xs => '[' :: (renderCommaList xs ++ [']'])
  | .obj kvs => '{' :: (renderObjList kvs ++ ['}'])

/-- Comma-separated rendering of an array's elements. -/
def renderCommaList : List JsonValue → List Char
  | [] => []
  | [x] => x.render
  | x :: y :: rest => x.render ++ [','] ++ renderCommaList (y :: rest)

/-- Comma-separated rendering of an object's key/value pairs. -/
def renderObjList : List (List Char × JsonValue) → List Char
  | [] => []
  | [(k, v)] => '"' :: (jsonEscape k ++ ['"', ':']) ++ v.render
  | (k, v) :: y :: rest =>
    ('"' :: (jsonEscape k ++ ['"', ':']) ++ v.render) ++ [','] ++ renderObjList (y :: rest)

end

/-- Modelled from the Go standard library: `json.Marshal` of the map built
by `jsonFormatter.Format` (keys sorted). -/
def jsonMarshal (kvs : List (List Char × JsonValue)) : List Char :=
  '{' :: (renderObjList (sortByKey kvs) ++ ['}'])

/-! ## Rendering -/

/-- The `Format` method of each formatter: the characters it appends to
the record's output buffer (`lineFormatter` uses `strconv.Itoa`;
`messageFormatter` uses `fmt.Fprintf` when the record has a format and
`fmt.Fprint` otherwise; `propertyFormatter` appends nothing when the
property is absent). -/
def formatOne : Formatter → LogMessage → List Char
  | .literal s, _ => s
  | .date, m => setTime m.timestamp
  | .severity, m => severityName.getD m.severity []
  | .logger, m => m.name
  | .file, m => m.file
  | .line, m => (toString m.line).toList
  | .context, m => m.ctx
  | .message, m => if m.format.length > 0 then goSprintf m.format m.args else goFprint m.args
  | .newline, _ => ['\n']
  | .property name, m =>
    match lookupProp m.properties name with
    | none => []
    | some v => goSprint v
  | .json, m => jsonMarshal (jsonObject m)

/-- An appender's render loop (`for _, f := range a.formatters
{ f.Format(m) }` after `m.Reset()`): the concatenation of each
formatter's output, in order. -/
def formatList (fs : List Formatter) (m : LogMessage) : List Char :=
  (fs.map fun f => formatOne f m).flatten

/-- The record built by `testMessage()` in formatting_test.go (timestamp
2016-04-09T18:03:28.342017Z, severity INFO = ordinal 1). -/
def testMessage : LogMessage :=
  { format := "Test %d (%d)".toList
    args := [.int 34, .int 56]
    severity := 1
    name := "Logger".toList
    file := "sample.go".toList
    line := 456
    ctx := "\x7bctx: 2\x7d".toList
    timestamp := { year := 2016, month := 4, day := 9, hour := 18, minute := 3, second := 28,
                   nano := 342017000 }
    properties := [("prop1".toList, .str "value1".toList), ("prop2".toList, .int 45)] }

/-! ## Appender SetFormat -/

/-- `consoleAppender.SetFormat`: on a compile error the error is returned
and the stored formatter slice is untouched; otherwise it is replaced
(the `none` branch is the fuel-exhaustion artifact of `extract`, which
never fires). -/
def consoleSetFormat (forms : List Formatter) (format : List Char) :
    List Formatter × Option ExtractError :=
  match extract format with
  | some (Except.ok f) => (f, none)
  | some (Except.error e) => (forms, some e)
  | none => (forms, none)

/-- `rollingFileAppender.SetFormat`: same logic as the console appender's. -/
def rollingSetFormat (forms : List Formatter) (format : List Char) :
    List Formatter × Option ExtractError :=
  match extract format with
  | some (Except.ok f) => (f, none)
  | some (Except.error e) => (forms, some e)
  | none => (forms, none)

/-! ## Rolling file appender byte accounting -/

/-- The byte-accounting state of `rollingFileAppender`: `bytes` (written
since the last rotation) and `max` are the struct's fields (`uint64` in
Go; modelled as `Nat` — the claims here never approach 2^64);
`rotations` counts calls to `rotate` and `closed` records the size of
each closed file, both observer fields of the specification. -/
structure RollingState where
  bytes : Nat
  max : Nat
  rotations : Nat
  closed : List Nat
  deriving DecidableEq, Repr

/-- `rollingFileAppender.rotate`: close the current file (its `bytes`
bytes are recorded in `closed`), open a new one and reset the counter. -/
def rotate (a : RollingState) : RollingState :=
  { a with bytes := 0, rotations := a.rotations + 1, closed := a.closed ++ [a.bytes] }

/-- `rollingFileAppender.Write(p)`: rotate first if the counter plus the
pending write's length reaches or exceeds `max`, then write the `p`
bytes to the current file and add them to the counter. -/
def write (a : RollingState) (p : Nat) : RollingState :=
  let a' := if a.bytes + p ≥ a.max then rotate a else a
  { a' with bytes := a'.bytes + p }

/-- A sequence of writes, in order. -/
def writeAll (a : RollingState) (ps : List Nat) : RollingState :=
  ps.foldl write a

/-- The appender's state right after construction (`RollingFileAppender`
eagerly rotates once to create the first file; `rotations` counts the
rotations performed after that, which is what the rotation claims are
about). -/
def initState (max : Nat) : RollingState :=
  { bytes := 0, max := max, rotations := 0, closed := [] }

/-- Specification-side count of the writes that trigger a rotation: those
whose pre-write counter plus length reaches or exceeds `max` (tracking
the counter as the writes would leave it). -/
def triggerCount (max : Nat) : Nat → List Nat → Nat
  | _, [] => 0
  | b, p :: ps => if b + p ≥ max then triggerCount max p ps + 1 else triggerCount max (b + p) ps

/-! ## Stepping lemmas for the compiler loop

One lemma per branch of `extractAux`'s loop body, phrased at the loop
state (`i`, pending literal `p`, result slice `s`): they characterize what
the scan does whenever it reaches a position satisfying the branch's
conditions. -/

theorem extractAux_step_done (format : List Char) (fuel i : Nat) (p : List Char)
    (s : List Formatter) (h : ¬ i < format.length) :
    extractAux format (fuel + 1) i p s =
      some (Except.ok (if p.length > 0 then s ++ [Formatter.literal p] else s)) := by
  simp [extractAux, h]

theorem extractAux_step_literal (format : List Char) (fuel i : Nat) (p : List Char)
    (s : List Formatter) (h : i < format.length) (hc : format[i] ≠ '%') :
    extractAux format (fuel + 1) i p s =
      extractAux format fuel (i + 1) (p ++ [format[i]]) s := by
  simp [extractAux, h, hc]

theorem extractAux_step_trailing (format : List Char) (fuel i : Nat) (p : List Char)
    (s : List Formatter) (h : i < format.length) (hc : format[i] = '%')
    (hlen : format.length - i = 1) :
    extractAux format (fuel + 1) i p s = extractAux format fuel (i + 1) (p ++ ['%']) s := by
  simp [extractAux, h, hc, hlen]

theorem extractAux_step_escaped (format : List Char) (fuel i : Nat) (p : List Char)
    (s : List Formatter) (h : i < format.length) (hc : format[i] = '%')
    (hlen : format.length - i ≠ 1) (hesc : format[i + 1]?.getD ' ' = '%') :
    extractAux format (fuel + 1) i p s = extractAux format fuel (i + 2) (p ++ ['%']) s := by
  simp [extractAux, h, hc, hlen, hesc]

theorem extractAux_step_invalid (format : List Char) (fuel i : Nat) (p : List Char)
    (s : List Formatter) (h : i < format.length) (hc : format[i] = '%')
    (hlen : format.length - i ≠ 1) (hesc : format[i + 1]?.getD ' ' ≠ '%')
    (hft : findTag formatters (format.drop (i + 1)) = none) :
    extractAux format (fuel + 1) i p s =
      some (Except.error (ExtractError.invalidSyntax i)) := by
  simp [extractAux, h, hc, hlen, hesc, hft]

theorem extractAux_step_tag (format : List Char) (fuel i : Nat) (p : List Char)
    (s : List Formatter) (f : Formatter) (n : Nat) (h : i < format.length)
    (hc : format[i] = '%') (hlen : format.length - i ≠ 1)
    (hesc : format[i + 1]?.getD ' ' ≠ '%')
    (hft : findTag formatters (format.drop (i + 1)) = some (f, n))
    (hbr : format[i + 1 + n]?.getD ' ' ≠ '{') :
    extractAux format (fuel + 1) i p s =
      extractAux format fuel (i + 1 + n) []
        ((if p.length > 0 then s ++ [Formatter.literal p] else s) ++ [f]) := by
  simp [extractAux, h, hc, hlen, hesc, hft, hbr]

theorem extractAux_step_unclosed (format : List Char) (fuel i : Nat) (p : List Char)
    (s : List Formatter) (f : Formatter) (n : Nat) (h : i < format.length)
    (hc : format[i] = '%') (hlen : format.length - i ≠ 1)
    (hesc : format[i + 1]?.getD ' ' ≠ '%')
    (hft : findTag formatters (format.drop (i + 1)) = some (f, n))
    (hbr : format[i + 1 + n]?.getD ' ' = '{')
    (hix : indexOfChar '}' (format.drop (i + 1 + n)) = none) :
    extractAux format (fuel + 1) i p s =
      some (Except.error (ExtractError.unclosedBrace (i + 1 + n))) := by
  simp [extractAux, h, hc, hlen, hesc, hft, hbr, hix]

theorem extractAux_step_param (format : List Char) (fuel i : Nat) (p : List Char)
    (s : List Formatter) (f : Formatter) (n j : Nat) (h : i < format.length)
    (hc : format[i] = '%') (hlen : format.length - i ≠ 1)
    (hesc : format[i + 1]?.getD ' ' ≠ '%')
    (hft : findTag formatters (format.drop (i + 1)) = some (f, n))
    (hbr : format[i + 1 + n]?.getD ' ' = '{')
    (hix : indexOfChar '}' (format.drop (i + 1 + n)) = some j) :
    extractAux format (fuel + 1) i p s =
      extractAux format fuel (i + 1 + n + j + 1) []
        ((if p.length > 0 then s ++ [Formatter.literal p] else s) ++
          [f.withParameter ((format.drop (i + 1 + n + 1)).take (j - 1))]) := by
  simp [extractAux, h, hc, hlen, hesc, hft, hbr, hix]

/-- Every loop iteration advances the index, so fuel `format.length - i + 1`
never runs out: the fuel-exhaustion `none` is unreachable. -/
theorem extractAux_isSome (format : List Char) :
    ∀ fuel i p s, format.length - i < fuel → (extractAux format fuel i p s).isSome := by
  intro fuel
  induction fuel with
  | zero => intro i p s hf; omega
  | succ fuel ih =>
    intro i p s hf
    by_cases h : i < format.length
    · by_cases hc : format[i] = '%'
      · by_cases hlen : format.length - i = 1
        · rw [extractAux_step_trailing format fuel i p s h hc hlen]
          exact ih _ _ _ (by omega)
        · by_cases hesc : format[i + 1]?.getD ' ' = '%'
          · rw [extractAux_step_escaped format fuel i p s h hc hlen hesc]
            exact ih _ _ _ (by omega)
          · match hft : findTag formatters (format.drop (i + 1)) with
            | none =>
              rw [extractAux_step_invalid format fuel i p s h hc hlen hesc hft]
              rfl
            | some (f, n) =>
              by_cases hbr : format[i + 1 + n]?.getD ' ' = '{'
              · match hix : indexOfChar '}' (format.drop (i + 1 + n)) with
                | none =>
                  rw [extractAux_step_unclosed format fuel i p s f n h hc hlen hesc hft hbr hix]
                  rfl
                | some j =>
                  rw [extractAux_step_param format fuel i p s f n j h hc hlen hesc hft hbr hix]
                  exact ih _ _ _ (by omega)
              · rw [extractAux_step_tag format fuel i p s f n h hc hlen hesc hft hbr]
                exact ih _ _ _ (by omega)
      · rw [extractAux_step_literal format fuel i p s h hc]
        exact ih _ _ _ (by omega)
    · rw [extractAux_step_done format fuel i p s h]
      rfl

/-- `extract` always returns a real compilation result. -/
theorem extract_isSome (format : List Char) : (extract format).isSome :=
  extractAux_isSome format (format.length + 1) 0 [] [] (by omega)

/-! ## Tag lookup and brace scanning -/

/-- Text starting with `p{` always resolves to the property formatter via
its shorthand alias `p` (no other registered name starts with `p`, and
`property` does not match because of the brace). -/
theorem findTag_p (rest : List Char) :
    findTag formatters ('p' :: '{' :: rest) = some (.property [], 1) := by rfl

theorem indexOfChar_cons_ne (c x : Char) (xs : List Char) (h : x ≠ c) :
    indexOfChar c (x :: xs) = (indexOfChar c xs).map (· + 1) := by
  simp [indexOfChar, h]

theorem indexOfChar_append_of_not_mem (c : Char) (name rest : List Char) (h : c ∉ name) :
    indexOfChar c (name ++ c :: rest) = some name.length := by
  induction name with
  | nil => simp [indexOfChar]
  | cons x xs ih =>
    have hx : x ≠ c := fun hxc => h (hxc ▸ List.mem_cons_self x xs)
    have hmem : c ∉ xs := fun hm => h (List.mem_cons_of_mem x hm)
    simp [indexOfChar, hx, ih hmem]

/-- Compiling `%p{name}` for a name free of `}`: the scan matches the `p`
alias, finds the closing brace right after the name, and yields exactly
the property formatter bound to the name. -/
theorem extract_property_name (name : List Char) (h : '}' ∉ name) :
    extract ('%' :: 'p' :: '{' :: (name ++ ['}'])) = some (.ok [.property name]) := by
  have hlen : ('%' :: 'p' :: '{' :: (name ++ ['}'])).length = name.length + 4 := by
    simp
  have hix : indexOfChar '}' (('%' :: 'p' :: '{' :: (name ++ ['}'])).drop 2) =
      some (name.length + 1) := by
    show indexOfChar '}' ('{' :: (name ++ ['}'])) = some (name.length + 1)
    rw [indexOfChar_cons_ne _ _ _ (by decide)]
    rw [show name ++ ['}'] = name ++ '}' :: [] from rfl,
      indexOfChar_append_of_not_mem _ _ _ h]
    rfl
  have h0 : 0 < ('%' :: 'p' :: '{' :: (name ++ ['}'])).length := by simp
  unfold extract
  rw [hlen]
  rw [extractAux_step_param ('%' :: 'p' :: '{' :: (name ++ ['}'])) (name.length + 4) 0 [] []
    (.property []) 1 (name.length + 1) h0 rfl (by rw [hlen]; omega) (by simp)
    (findTag_p _) (by simp) hix]
  rw [show 0 + 1 + 1 + (name.length + 1) + 1 = name.length + 4 from by omega]
  rw [show name.length + 1 - 1 = name.length from by omega]
  rw [show (('%' :: 'p' :: '{' :: (name ++ ['}'])).drop (0 + 1 + 1 + 1)) = name ++ ['}']
    from rfl]
  rw [List.take_left]
  rw [show name.length + 4 = (name.length + 3) + 1 from rfl]
  rw [extractAux_step_done _ _ _ _ _ (by rw [hlen]; omega)]
  rfl

/-! ## JSON object map lemmas -/

theorem mem_keys_mapSet (d : List (List Char × JsonValue)) (k a : List Char) (v : JsonValue) :
    a ∈ (mapSet d k v).map Prod.fst ↔ a = k ∨ a ∈ d.map Prod.fst := by
  induction d with
  | nil => simp [mapSet]
  | cons x xs ih =>
    by_cases hx : x.1 = k
    · cases x with
      | mk k' v' =>
        simp only [mapSet]
        simp_all
    · cases x with
      | mk k' v' =>
        simp only at hx
        simp [mapSet, hx, ih]
        tauto

theorem lookup_mapSet_self (d : List (List Char × JsonValue)) (k : List Char) (v : JsonValue) :
    lookupProp (mapSet d k v) k = some v := by
  induction d with
  | nil => simp [mapSet, lookupProp]
  | cons x xs ih =>
    by_cases hx : x.1 = k
    · cases x; simp_all [mapSet, lookupProp]
    · cases x; simp_all [mapSet, lookupProp]

theorem mem_keys_foldl_mapSet (props : List (List Char × GoValue))
    (d : List (List Char × JsonValue)) (a : List Char) :
    a ∈ ((props.foldl (fun d kv => mapSet d kv.1 kv.2.toJson) d).map Prod.fst) ↔
      a ∈ d.map Prod.fst ∨ a ∈ props.map Prod.fst := by
  induction props generalizing d with
  | nil => simp
  | cons x xs ih =>
    simp only [List.foldl_cons, ih, mem_keys_mapSet]
    simp
    tauto

/-- The seven built-in assignments of `jsonFormatter.Format` have pairwise
distinct keys, so the map they build is this association list. -/
theorem jsonObject_eq (m : LogMessage) :
    jsonObject m =
      mapSet
        (m.properties.foldl (fun d kv => mapSet d kv.1 kv.2.toJson)
          [("@timestamp".toList, .time m.timestamp), ("@version".toList, .str ['1']),
           ("level".toList, .str (severityName.getD m.severity [])),
           ("level_value".toList, .num m.severity), ("logger_name".toList, .str m.name),
           ("file".toList, .str m.file), ("line".toList, .num m.line)])
        "message".toList (jsonMessage m) := rfl

theorem jsonObject_keys (m : LogMessage) (a : List Char) :
    a ∈ (jsonObject m).map Prod.fst ↔
      (a ∈ ["@timestamp".toList, "@version".toList, "level".toList, "level_value".toList,
            "logger_name".toList, "file".toList, "line".toList, "message".toList] ∨
       a ∈ m.properties.map Prod.fst) := by
  rw [jsonObject_eq, mem_keys_mapSet, mem_keys_foldl_mapSet]
  simp only [List.map_cons, List.map_nil, List.mem_cons, List.not_mem_nil, or_false]
  tauto

/-! ## Rolling file byte accounting lemmas -/

theorem write_max (a : RollingState) (p : Nat) : (write a p).max = a.max := by
  by_cases h : a.bytes + p ≥ a.max <;> simp [write, rotate, h]

theorem writeAll_rotations (ps : List Nat) :
    ∀ a : RollingState,
      (writeAll a ps).rotations = a.rotations + triggerCount a.max a.bytes ps := by
  induction ps with
  | nil => intro a; simp [writeAll, triggerCount]
  | cons p ps ih =>
    intro a
    show (writeAll (write a p) ps).rotations = _
    rw [ih]
    by_cases h : a.bytes + p ≥ a.max <;>
      simp [write, rotate, h, triggerCount]
    all_goals omega

theorem writeAll_conservation (ps : List Nat) :
    ∀ a : RollingState,
      (writeAll a ps).closed.sum + (writeAll a ps).bytes =
        a.closed.sum + a.bytes + ps.sum := by
  induction ps with
  | nil => intro a; simp [writeAll]
  | cons p ps ih =>
    intro a
    show (writeAll (write a p) ps).closed.sum + (writeAll (write a p) ps).bytes = _
    rw [ih]
    by_cases h : a.bytes + p ≥ a.max <;> simp [write, rotate, h] <;> omega

theorem writeAll_bytes_le (ps : List Nat) :
    ∀ a : RollingState, (∀ l ∈ ps, l ≤ a.max) → a.bytes ≤ a.max →
      (writeAll a ps).bytes ≤ a.max := by
  induction ps with
  | nil => intro a _ hb; simpa [writeAll] using hb
  | cons p ps ih =>
    intro a hps hb
    show (writeAll (write a p) ps).bytes ≤ a.max
    have hmax := write_max a p
    have hp : p ≤ a.max := hps p (List.mem_cons_self p ps)
    have hb' : (write a p).bytes ≤ (write a p).max := by
      by_cases h : a.bytes + p ≥ a.max <;> (simp [write, rotate, h]; omega)
    have := ih (write a p) (by rw [hmax]; exact fun l hl => hps l (List.mem_cons_of_mem p hl)) hb'
    rwa [hmax] at this

/-! ## Claim theorems -/

/-- C1 counterexample: with max-size 2, three writes of one byte each
cause two rotations while floor(3/2) = 1, and a single write of 3 bytes
leaves the counter at 3 > 2 — refuting "exactly floor(N/M) rotations"
and "the counter never exceeds M when a write completes". -/
theorem rolling_floor_div_cex :
    (writeAll (initState 2) [1, 1, 1]).rotations ≠ ([1, 1, 1] : List Nat).sum / 2 ∧
    ¬ (writeAll (initState 2) [3]).bytes ≤ 2 := by decide

/-- C1 (amended): after any sequence of writes each of length at most M,
the appender has performed one rotation for exactly those writes whose
counter plus length reached or exceeded M, the bytes-since-rotation
counter never exceeds M when a write completes, every written byte is in
exactly one file, and rotation precedes the triggering write, which goes
whole into the fresh file (the closed file receives none of it). -/
theorem rolling_rotation_invariant (M : Nat) (ps : List Nat) (hps : ∀ l ∈ ps, l ≤ M) :
    (writeAll (initState M) ps).rotations = triggerCount M 0 ps ∧
    (writeAll (initState M) ps).bytes ≤ M ∧
    (writeAll (initState M) ps).closed.sum + (writeAll (initState M) ps).bytes = ps.sum ∧
    (∀ (a : RollingState) (p : Nat),
      (write a p).bytes = (if a.bytes + p ≥ a.max then 0 else a.bytes) + p ∧
      (write a p).closed = if a.bytes + p ≥ a.max then a.closed ++ [a.bytes] else a.closed) := by
  refine ⟨?_, ?_, ?_, ?_⟩
  · have h := writeAll_rotations ps (initState M)
    simpa [initState] using h
  · exact writeAll_bytes_le ps (initState M) (by simpa [initState] using hps)
      (by simp [initState])
  · have h := writeAll_conservation ps (initState M)
    simpa [initState] using h
  · intro a p
    by_cases h : a.bytes + p ≥ a.max <;> simp [write, rotate, h]

/-- C1 witness: the amended invariant at M = 2 with writes [1, 1]. -/
theorem rolling_rotation_invariant_witness :
    (∀ l ∈ ([1, 1] : List Nat), l ≤ 2) ∧
    ((writeAll (initState 2) [1, 1]).rotations = triggerCount 2 0 [1, 1] ∧
     (writeAll (initState 2) [1, 1]).bytes ≤ 2 ∧
     (writeAll (initState 2) [1, 1]).closed.sum + (writeAll (initState 2) [1, 1]).bytes =
       ([1, 1] : List Nat).sum ∧
     (∀ (a : RollingState) (p : Nat),
       (write a p).bytes = (if a.bytes + p ≥ a.max then 0 else a.bytes) + p ∧
       (write a p).closed = if a.bytes + p ≥ a.max then a.closed ++ [a.bytes] else a.closed)) :=
  ⟨by decide, rolling_rotation_invariant 2 [1, 1] (by decide)⟩

/-- C2 counterexample: for "bla%h blah" the code reports invalid syntax at
position 3, which is the index of the '%' itself, not the position
immediately after it (3 + 1). -/
theorem invalid_syntax_position_cex :
    extract "bla%h blah".toList = some (.error (.invalidSyntax 3)) ∧
    "bla%h blah".toList[3]? = some '%' ∧ (3 : Nat) ≠ 3 + 1 :=
  ⟨rfl, rfl, by decide⟩

/-- C2 (amended): whenever the scan reaches a '%' that is not the last
character, is not part of a "%%" escape, and no registered tag alias
matches the text after it, compilation fails with an invalid-syntax error
whose reported position is the position of the '%' itself. -/
theorem invalid_syntax_position (format : List Char) (fuel i : Nat) (p : List Char)
    (s : List Formatter) (h : i < format.length) (hc : format[i] = '%')
    (hlen : format.length - i ≠ 1) (hesc : format[i + 1]?.getD ' ' ≠ '%')
    (hft : findTag formatters (format.drop (i + 1)) = none) :
    extractAux format (fuel + 1) i p s = some (.error (.invalidSyntax i)) :=
  extractAux_step_invalid format fuel i p s h hc hlen hesc hft

/-- C2 witness: the amended statement at "bla%h blah", whose '%' is at
index 3. -/
theorem invalid_syntax_position_witness :
    3 < "bla%h blah".toList.length ∧
    extractAux "bla%h blah".toList 8 3 "bla".toList [] =
      some (.error (.invalidSyntax 3)) :=
  ⟨by decide, invalid_syntax_position "bla%h blah".toList 7 3 "bla".toList [] (by decide)
    (by decide) (by decide) (by decide) (by decide)⟩

/-- C3 counterexample: the JSON object for the test record has a
logger_name key, which is not among the keys the claim lists. -/
theorem json_keys_cex :
    "logger_name".toList ∈ (jsonObject testMessage).map Prod.fst ∧
    "logger_name".toList ∉
      ["@timestamp".toList, "@version".toList, "level".toList, "level_value".toList,
       "file".toList, "line".toList, "prop1".toList, "prop2".toList, "message".toList] := by
  decide

/-- C3 (amended): for every record the JSON object's keys are exactly
timestamp, version, level, level_value, logger_name, file, line, each
property key verbatim, and message; and message holds the formatted
string when the record has a template, the sole argument when there is no
template and exactly one argument, and otherwise the argument sequence. -/
theorem json_object_spec (m : LogMessage) (a : List Char) :
    (a ∈ (jsonObject m).map Prod.fst ↔
      (a ∈ ["@timestamp".toList, "@version".toList, "level".toList, "level_value".toList,
            "logger_name".toList, "file".toList, "line".toList, "message".toList] ∨
       a ∈ m.properties.map Prod.fst)) ∧
    lookupProp (jsonObject m) "message".toList =
      some (if m.format.length > 0 then .str (goSprintf m.format m.args)
            else match m.args with
                 | [x] => x.toJson
                 | args => .arr (args.map GoValue.toJson)) :=
  ⟨jsonObject_keys m a, by rw [jsonObject_eq, lookup_mapSet_self]; rfl⟩

/-- C4: the default template compiles to the expected renderer sequence,
which renders the test record (severity INFO, file sample.go, line 456,
message "Test %d (%d)" with arguments 34 and 56, timestamp
2016-04-09T18:03:28.342017Z) to exactly the expected line. -/
theorem default_format_render :
    extract defaultFormat =
      some (.ok
        [.date, .literal " ".toList, .severity, .literal " (".toList, .file,
         .literal ":".toList, .line, .literal ") - ".toList, .message, .newline]) ∧
    formatList
      [.date, .literal " ".toList, .severity, .literal " (".toList, .file,
       .literal ":".toList, .line, .literal ") - ".toList, .message, .newline] testMessage =
      "2016-04-09 18:03:28.342017 INFO (sample.go:456) - Test 34 (56)\n".toList :=
  ⟨rfl, rfl⟩

/-- C5: a trailing '%' compiles without error into the pending literal,
each "%%" pair contributes a single literal '%' and the scan continues
past both characters, a literal renders as itself, and concretely
"blah more%" compiles to the literal "blah more%" while "a%%b%%" renders
as "a%b%". -/
theorem percent_literal_escapes :
    (∀ (format : List Char) (fuel i : Nat) (p : List Char) (s : List Formatter)
       (h : i < format.length), format[i] = '%' → format.length - i = 1 →
       extractAux format (fuel + 2) i p s = some (.ok (s ++ [.literal (p ++ ['%'])]))) ∧
    (∀ (format : List Char) (fuel i : Nat) (p : List Char) (s : List Formatter)
       (h : i < format.length), format[i] = '%' → format.length - i ≠ 1 →
       format[i + 1]?.getD ' ' = '%' →
       extractAux format (fuel + 1) i p s = extractAux format fuel (i + 2) (p ++ ['%']) s) ∧
    (∀ (m : LogMessage) (p : List Char), formatOne (.literal (p ++ ['%'])) m = p ++ ['%']) ∧
    extract "blah more%".toList = some (.ok [.literal "blah more%".toList]) ∧
    (extract "a%%b%%".toList).map (Except.map fun fs => formatList fs testMessage) =
      some (.ok "a%b%".toList) := by
  refine ⟨?_, ?_, ?_, rfl, rfl⟩
  · intro format fuel i p s h hc hlen
    rw [show fuel + 2 = (fuel + 1) + 1 from rfl,
      extractAux_step_trailing format (fuel + 1) i p s h hc hlen,
      extractAux_step_done format fuel (i + 1) (p ++ ['%']) s (by omega)]
    simp
  · intro format fuel i p s h hc hlen hesc
    exact extractAux_step_escaped format fuel i p s h hc hlen hesc
  · intro m p
    rfl

/-- C5 witness: the trailing-'%' part at "x%" (index 1) and the escape
part at "%%ab" (index 0). -/
theorem percent_literal_escapes_witness :
    (1 < "x%".toList.length ∧
      extractAux "x%".toList 5 1 "x".toList [] = some (.ok [.literal "x%".toList])) ∧
    (0 < "%%ab".toList.length ∧
      extractAux "%%ab".toList 5 0 [] [] = extractAux "%%ab".toList 4 2 ['%'] []) :=
  ⟨⟨by decide, percent_literal_escapes.1 "x%".toList 3 1 "x".toList [] (by decide) (by decide)
      (by decide)⟩,
   ⟨by decide, percent_literal_escapes.2.1 "%%ab".toList 4 0 [] [] (by decide) (by decide)
      (by decide) (by decide)⟩⟩

/-- C6 counterexample: for the property name "}%q" (which contains '}'),
compiling %p{name} does not succeed — the first '}' closes the parameter
early and the leftover "%q" is an unknown tag, failing at position 4. -/
theorem property_roundtrip_cex :
    extract ('%' :: 'p' :: '{' :: (('}' :: '%' :: 'q' :: []) ++ ['}'])) =
      some (.error (.invalidSyntax 4)) := rfl

/-- C6 (amended): for every property name free of '}', compiling %p{name}
succeeds and yields exactly the property renderer bound to the name;
rendering it against a record whose properties contain the name emits the
fmt-style conversion of the stored value, and against a record lacking it
emits the empty string — never an error. -/
theorem property_roundtrip (name : List Char) (h : '}' ∉ name) :
    extract ('%' :: 'p' :: '{' :: (name ++ ['}'])) = some (.ok [.property name]) ∧
    (∀ (m : LogMessage) (v : GoValue),
      lookupProp m.properties name = some v → formatOne (.property name) m = goSprint v) ∧
    (∀ m : LogMessage,
      lookupProp m.properties name = none → formatOne (.property name) m = []) := by
  refine ⟨extract_property_name name h, ?_, ?_⟩
  · intro m v hv
    simp [formatOne, hv]
  · intro m hm
    simp [formatOne, hm]

/-- C6 witness: the amended round-trip at the name "prop1". -/
theorem property_roundtrip_witness :
    ('}' ∉ "prop1".toList) ∧
    (extract ('%' :: 'p' :: '{' :: ("prop1".toList ++ ['}'])) =
       some (.ok [.property "prop1".toList]) ∧
     (∀ (m : LogMessage) (v : GoValue),
       lookupProp m.properties "prop1".toList = some v →
         formatOne (.property "prop1".toList) m = goSprint v) ∧
     (∀ m : LogMessage,
       lookupProp m.properties "prop1".toList = none →
         formatOne (.property "prop1".toList) m = [])) :=
  ⟨by decide, property_roundtrip "prop1".toList (by decide)⟩

/-- C7: whenever the scan matches a tag immediately followed by '{' with
no '}' anywhere up to the end of the template, compilation fails with an
unclosed-parameter-brace error at the index of the '{'; concretely,
"blah %property{fish" fails with that error at index 14, the index of
the '{'. -/
theorem unclosed_brace_position :
    (∀ (format : List Char) (fuel i : Nat) (p : List Char) (s : List Formatter)
       (f : Formatter) (n : Nat) (h : i < format.length),
       format[i] = '%' → format.length - i ≠ 1 → format[i + 1]?.getD ' ' ≠ '%' →
       findTag formatters (format.drop (i + 1)) = some (f, n) →
       format[i + 1 + n]?.getD ' ' = '{' →
       indexOfChar '}' (format.drop (i + 1 + n)) = none →
       extractAux format (fuel + 1) i p s =
         some (.error (.unclosedBrace (i + 1 + n)))) ∧
    extract "blah %property\x7bfish".toList = some (.error (.unclosedBrace 14)) ∧
    "blah %property\x7bfish".toList[14]? = some '{' :=
  ⟨fun format fuel i p s f n h hc hlen hesc hft hbr hix =>
    extractAux_step_unclosed format fuel i p s f n h hc hlen hesc hft hbr hix, rfl, rfl⟩

/-- C7 witness: the general part at "blah %property{fish" with the '%' at
index 5 and the matched tag "property" of length 8. -/
theorem unclosed_brace_position_witness :
    5 < "blah %property\x7bfish".toList.length ∧
    extractAux "blah %property\x7bfish".toList 26 5 "blah ".toList [] =
      some (.error (.unclosedBrace 14)) :=
  ⟨by decide, unclosed_brace_position.1 "blah %property\x7bfish".toList 25 5 "blah ".toList []
    (.property []) 8 (by decide) (by decide) (by decide) (by decide) (by decide) (by decide)
    (by decide)⟩

/-- C8: for both the console and the rolling file appender, when
compilation of the new template fails, SetFormat returns that error and
the previously compiled formatter sequence is left completely
unchanged. -/
theorem set_format_error_keeps_formatters (forms : List Formatter) (format : List Char)
    (e : ExtractError) (h : extract format = some (.error e)) :
    consoleSetFormat forms format = (forms, some e) ∧
    rollingSetFormat forms format = (forms, some e) := by
  constructor <;> simp [consoleSetFormat, rollingSetFormat, h]

/-- C8 witness: SetFormat with the failing template "bla%%%h blah" keeps
a previously compiled date formatter on both appenders. -/
theorem set_format_error_keeps_formatters_witness :
    extract "bla%%%h blah".toList = some (.error (.invalidSyntax 5)) ∧
    (consoleSetFormat [.date] "bla%%%h blah".toList = ([.date], some (.invalidSyntax 5)) ∧
     rollingSetFormat [.date] "bla%%%h blah".toList = ([.date], some (.invalidSyntax 5))) :=
  ⟨rfl, set_format_error_keeps_formatters [.date] "bla%%%h blah".toList (.invalidSyntax 5) rfl⟩

/-- C9: compiling "bla%%%h blah" fails with an invalid-syntax
(unknown-tag) error at character index 5; index 5 holds the third '%',
the one that starts the failed tag. -/
theorem unknown_tag_concrete_position :
    extract "bla%%%h blah".toList = some (.error (.invalidSyntax 5)) ∧
    "bla%%%h blah".toList[5]? = some '%' :=
  ⟨rfl, rfl⟩

/-- C10: whenever the scan matches the property tag (alias property or p)
not immediately followed by '{', it continues without error, appending
the property renderer bound to the empty name; that renderer emits
nothing for any record whose properties lack the empty-string key;
concretely "ab%px" compiles and renders to "abx" against the test record. -/
theorem property_tag_without_brace :
    (∀ (format : List Char) (fuel i n : Nat) (p : List Char) (s : List Formatter)
       (h : i < format.length),
       format[i] = '%' → format.length - i ≠ 1 → format[i + 1]?.getD ' ' ≠ '%' →
       findTag formatters (format.drop (i + 1)) = some (.property [], n) →
       format[i + 1 + n]?.getD ' ' ≠ '{' →
       extractAux format (fuel + 1) i p s =
         extractAux format fuel (i + 1 + n) []
           ((if p.length > 0 then s ++ [Formatter.literal p] else s) ++ [.property []])) ∧
    (∀ m : LogMessage, lookupProp m.properties [] = none → formatOne (.property []) m = []) ∧
    (extract "ab%px".toList).map (Except.map fun fs => formatList fs testMessage) =
      some (.ok "abx".toList) := by
  refine ⟨?_, ?_, rfl⟩
  · intro format fuel i n p s h hc hlen hesc hft hbr
    exact extractAux_step_tag format fuel i p s (.property []) n h hc hlen hesc hft hbr
  · intro m hm
    simp [formatOne, hm]

/-- C10 witness: the scan step at "ab%px" (the '%' at index 2, shorthand
tag p of length 1, next character 'x'), and the empty render against the
test record, whose properties lack the empty-string key. -/
theorem property_tag_without_brace_witness :
    (2 < "ab%px".toList.length ∧
     extractAux "ab%px".toList 6 2 "ab".toList [] =
       extractAux "ab%px".toList 5 4 []
         ((if ("ab".toList).length > 0 then [] ++ [Formatter.literal "ab".toList] else []) ++
           [.property []])) ∧
    (lookupProp testMessage.properties [] = none ∧
     formatOne (.property []) testMessage = []) :=
  ⟨⟨by decide,
    property_tag_without_brace.1 "ab%px".toList 5 2 1 "ab".toList [] (by decide) (by decide)
      (by decide) (by decide) (by decide) (by decide)⟩,
   ⟨by decide, property_tag_without_brace.2.1 testMessage (by decide)⟩⟩

end Logo
